import Mathlib

/-!
Shallow embedding of the `skipi` library (files `skipi/function.py` and
`skipi/parameter.py`) over the rationals.

Modelling conventions:
* Python floats are modelled by `ℚ`; the IEEE value `nan` (which the library
  produces deliberately through the `to_zero=False` fill policy) is modelled
  explicitly by the type `RVal`.  Non-finite results of arithmetic
  (`inf`, `-inf`, `nan`) are collapsed into the single `nan` constructor;
  none of the developments below exercise the distinction.
* Python complex numbers are pairs of `RVal`s (`CV`), with the usual complex
  arithmetic formulas lifted over `RVal`.
* numpy's vectorised application of a callable over a whole domain array is
  modelled as a pointwise `List.map` over the domain.
* Python exceptions are modelled with `Except PyErr`; a Python method that
  falls through without `return` yields `Option.none`.
-/

deriving instance DecidableEq for Except

namespace Skipi

/-- Python exception kinds raised by the embedded code paths. -/
inductive PyErr where
  | typeErr (msg : String)
  | runtimeWarning (msg : String)
  | indexErr (msg : String)
  | valueErr (msg : String)
  | runtimeErr (msg : String)
deriving DecidableEq, Repr

/-- A Python float value: either an actual (rational) number or `nan`.
Non-finite arithmetic results are collapsed into `nan`. -/
inductive RVal where
  | num (q : ℚ)
  | nan
deriving DecidableEq, Repr

namespace RVal

/-- IEEE-style addition: any operation touching `nan` yields `nan`. -/
def add : RVal → RVal → RVal
  | num a, num b => num (a + b)
  | _, _ => nan

/-- IEEE-style subtraction with `nan` propagation. -/
def sub : RVal → RVal → RVal
  | num a, num b => num (a - b)
  | _, _ => nan

/-- IEEE-style multiplication with `nan` propagation (`0 * nan = nan`). -/
def mul : RVal → RVal → RVal
  | num a, num b => num (a * b)
  | _, _ => nan

/-- Division; a zero divisor would give a non-finite float in numpy, which
this model collapses to `nan`. -/
def div : RVal → RVal → RVal
  | num a, num b => if b = 0 then nan else num (a / b)
  | _, _ => nan

instance : Add RVal := ⟨add⟩
instance : Sub RVal := ⟨sub⟩
instance : Mul RVal := ⟨mul⟩
instance : Div RVal := ⟨div⟩

end RVal

/-- A Python complex value: real and imaginary part, each possibly `nan`. -/
structure CV where
  re : RVal
  im : RVal
deriving DecidableEq, Repr

namespace CV

/-- The complex number `0 + 0i`. -/
def zero : CV := ⟨.num 0, .num 0⟩

/-- Complex addition, componentwise. -/
def add (a b : CV) : CV := ⟨a.re + b.re, a.im + b.im⟩

/-- Complex subtraction, componentwise. -/
def sub (a b : CV) : CV := ⟨a.re - b.re, a.im - b.im⟩

/-- Complex negation. -/
def neg (a : CV) : CV := ⟨RVal.num 0 - a.re, RVal.num 0 - a.im⟩

/-- Complex multiplication `(a+bi)(c+di) = (ac-bd) + (ad+bc)i`. -/
def mul (a b : CV) : CV :=
  ⟨a.re * b.re - a.im * b.im, a.re * b.im + a.im * b.re⟩

/-- Complex division by the conjugate formula; exact over `ℚ` whenever the
divisor is a nonzero numeric value. -/
def div (a b : CV) : CV :=
  let d := b.re * b.re + b.im * b.im
  ⟨(a.re * b.re + a.im * b.im) / d, (a.im * b.re - a.re * b.im) / d⟩

instance : Add CV := ⟨add⟩
instance : Sub CV := ⟨sub⟩
instance : Mul CV := ⟨mul⟩
instance : Div CV := ⟨div⟩
instance : Neg CV := ⟨neg⟩

/-- Whether a complex value is an actual number (neither part is `nan`). -/
def isNum (a : CV) : Bool :=
  match a.re, a.im with
  | .num _, .num _ => true
  | _, _ => false

/-- Embeds a plain rational as a complex value. -/
def ofQ (q : ℚ) : CV := ⟨.num q, .num 0⟩

end CV

/-- Elementwise first differences, numpy's `numpy.diff` on a 1-d array. -/
def npDiff : List ℚ → List ℚ
  | [] => []
  | [_] => []
  | a :: b :: rest => (b - a) :: npDiff (b :: rest)

/-- numpy's `numpy.isclose(x, 0)` with the default tolerances
`rtol=1e-5, atol=1e-8`: the absolute value of `x - 0` is at most
`atol + rtol*|0| = 1e-8`, spelled as a two-sided bound. -/
def npIsCloseZero (x : ℚ) : Bool :=
  -(1 / 100000000) ≤ x && x ≤ 1 / 100000000

/-- Embeds `Function.is_evenly_spaced_domain` (function.py:70-84).
It computes `diff = numpy.diff(domain)` and then evaluates
`diff - diff[0]`; when the domain has fewer than two points, `diff` is
empty and the subscript `diff[0]` raises an `IndexError`.  Otherwise it
returns whether every difference is numerically close to the first one. -/
def is_evenly_spaced_domain (domain : List ℚ) : Except PyErr Bool :=
  match npDiff domain with
  | [] => .error (.indexErr "index 0 is out of bounds for axis 0 with size 0")
  | d0 :: rest => .ok ((d0 :: rest).all (fun d => npIsCloseZero (d - d0)))

/-- A skipi `Function` object: the stored domain array and the stored
relation callable (function.py:60,68). -/
structure PyFunction where
  dom : List ℚ
  f : ℚ → CV

/-- Embeds `Function.__init__` (function.py:39-68): validates the domain
spacing (raising the `RuntimeWarning` the source uses as an error when the
check returns false, and propagating the `IndexError` the check itself can
raise), then stores domain and relation.  The callability check and the
unwrap of a `Function` argument to its underlying relation are invisible
here because relations are Lean functions already. -/
def Function.init (domain : List ℚ) (rel : ℚ → CV) : Except PyErr PyFunction := do
  let ok ← is_evenly_spaced_domain domain
  if ok then
    .ok ⟨domain, rel⟩
  else
    .error (.runtimeWarning "Given domain is not equidistantly spaced")

/-- Embeds `Function.get_dx` (function.py:219-225). -/
def get_dx (domain : List ℚ) : ℚ :=
  match domain with
  | d0 :: d1 :: _ => d1 - d0
  | _ => 0

/-- Embeds `Function.eval` (function.py:216-217): the relation applied
vectorised over the whole domain, modelled pointwise. -/
def PyFunction.eval (fn : PyFunction) : List CV := fn.dom.map fn.f

/-- numpy's `searchsorted(xs, v, side='left')` on a sorted array: the number
of entries strictly below `v`. -/
def searchsortedLeft (xs : List ℚ) (v : ℚ) : Nat := xs.countP (fun a => a < v)

/-- scipy's `interp1d._call_linear` at one point: `searchsorted` the query,
clip the index into `[1, len-1]`, and interpolate linearly on the segment
between the two neighbouring knots. -/
def linInterpAt (xs : List ℚ) (ys : List RVal) (x : ℚ) : RVal :=
  let idx := min (max (searchsortedLeft xs x) 1) (xs.length - 1)
  let lo := idx - 1
  let xlo := xs.getD lo 0
  let xhi := xs.getD idx 0
  let ylo := ys.getD lo .nan
  let yhi := ys.getD idx .nan
  let slope := (yhi - ylo) / RVal.num (xhi - xlo)
  slope * RVal.num (x - xlo) + ylo

/-- The midpoints between consecutive knots, scipy's `x_bds` for the
`nearest` kind. -/
def midpoints (xs : List ℚ) : List ℚ :=
  List.zipWith (fun a b => (a + b) / 2) xs xs.tail

/-- scipy's `interp1d._call_nearest` at one point: `searchsorted` (side
left) into the array of segment midpoints and pick that sample. -/
def nearestAt (xs : List ℚ) (ys : List RVal) (x : ℚ) : RVal :=
  ys.getD (searchsortedLeft (midpoints xs) x) .nan

/-- scipy's out-of-bounds handling with `bounds_error=False`: queries below
the first knot get the lower fill value, queries above the last knot get the
upper fill value, and everything inside the span goes to the interpolant. -/
def boundsWrap (xs : List ℚ) (fill : RVal × RVal) (inner : ℚ → RVal)
    (x : ℚ) : RVal :=
  if x < xs.headD 0 then fill.1
  else if xs.getLastD 0 < x then fill.2
  else inner x

/-- Embeds the construction of `scipy.interpolate.interp1d(x, y,
fill_value=fill, bounds_error=False, kind=kind)` followed by pointwise
evaluation.  Construction validates that `x` and `y` have equal length and
at least two entries (scipy's `ValueError`s).  Of the closed set of
interpolation kinds only the two exercised by this development, `linear`
and `nearest`, are given their in-range formulas; the remaining spline
kinds are rejected. -/
def interp1dMk (xs : List ℚ) (ys : List RVal) (fill : RVal × RVal)
    (kind : String) : Except PyErr (ℚ → RVal) :=
  if xs.length ≠ ys.length then
    .error (.valueErr "x and y arrays must be equal in length along interpolation axis")
  else if xs.length < 2 then
    .error (.valueErr "x and y arrays must have at least 2 entries")
  else if kind = "linear" then
    .ok (boundsWrap xs fill (linInterpAt xs ys))
  else if kind = "nearest" then
    .ok (boundsWrap xs fill (nearestAt xs ys))
  else
    .error (.valueErr "interpolation kind not modelled")

/-- The initial value of the module-level global
`FUNCTION_INTERPOLATION_TYPE` (function.py:7). -/
def FUNCTION_INTERPOLATION_TYPE_initial : String := "linear"

/-- Embeds `set_interpolation_type` (function.py:471-481).  The process-wide
global is threaded explicitly: given the new kind and the current global,
it returns the previous kind and the new global state. -/
def set_interpolation_type (interpolation_type : String)
    (globalState : String) : String × String :=
  (globalState, interpolation_type)

/-- The duck-typed second argument of `to_function`: either a callable
relation or a pre-evaluated sample array. -/
inductive FEval where
  | callable (f : ℚ → CV)
  | samples (ys : List CV)

/-- The sample array `to_function` works on (function.py:489-490): a
callable is evaluated pointwise over the mesh, a sample array is kept. -/
def FEval.arr (feval : FEval) (x_space : List ℚ) : List CV :=
  match feval with
  | .callable f => x_space.map f
  | .samples ys => ys

/-- Embeds the lambda `lambda x: real(x) + 1j * imag(x)` (function.py:507):
the two interpolated parts recombined through Python complex arithmetic. -/
def combineParts (r i : RVal) : CV :=
  (⟨r, .num 0⟩ : CV) + (⟨.num 0, .num 1⟩ : CV) * (⟨i, .num 0⟩ : CV)

/-- Embeds the module-level `to_function` (function.py:484-507): resolve the
interpolation kind (falling back to the global read at call time), evaluate
a callable pointwise over the mesh, return the trivial relation `lambda x: 0`
for an empty mesh, otherwise fit independent interpolants to the real and the
imaginary parts with the fill policy selected by `to_zero`, and recombine. -/
def to_function (x_space : List ℚ) (feval : FEval)
    (interpolation : Option String) (to_zero : Bool)
    (globalKind : String) : Except PyErr (ℚ → CV) :=
  let interp := interpolation.getD globalKind
  let fevalArr := feval.arr x_space
  if x_space.length = 0 then
    .ok (fun _ => CV.zero)
  else
    let fill : RVal × RVal :=
      if to_zero then (.num 0, .num 0) else (.nan, .nan)
    do
      let re ← interp1dMk x_space (fevalArr.map CV.re) fill interp
      let im ← interp1dMk x_space (fevalArr.map CV.im) fill interp
      .ok (fun x => combineParts (re x) (im x))

/-- The possible right operands of the binary operator methods: another
`Function`, a Python number, or something else (the concrete non-number,
non-`Function` values exercised below are strings and lists). -/
inductive Operand where
  | fn (g : PyFunction)
  | int (n : ℤ)
  | float (q : ℚ)
  | complex (z : CV)
  | str (s : String)
  | list (xs : List ℚ)

/-- Embeds `Function._is_number` (function.py:278-283): the `isinstance`
chain over `int`, `float`, `numpy.complex` and `numpy.float` (the latter two
are aliases of the builtin `complex` and `float`). -/
def _is_number : Operand → Bool
  | .int _ => true
  | .float _ => true
  | .complex _ => true
  | _ => false

/-- The complex value of a numeric operand (Python numeric promotion). -/
def Operand.toCV : Operand → CV
  | .int n => CV.ofQ (n : ℚ)
  | .float q => CV.ofQ q
  | .complex z => z
  | _ => CV.zero

/-- Embeds `Function.__add__` (function.py:285-289): for a `Function`
operand build a new `Function` on the receiver's domain adding the two
relations pointwise; for a number add the scalar; otherwise fall through
(the method returns `None`). -/
def pyAdd (self : PyFunction) (other : Operand) :
    Option (Except PyErr PyFunction) :=
  match other with
  | .fn g => some (Function.init self.dom (fun x => self.f x + g.f x))
  | o =>
    if _is_number o then
      some (Function.init self.dom (fun x => self.f x + o.toCV))
    else
      none

/-- Embeds `Function.__sub__` (function.py:291-295). -/
def pySub (self : PyFunction) (other : Operand) :
    Option (Except PyErr PyFunction) :=
  match other with
  | .fn g => some (Function.init self.dom (fun x => self.f x - g.f x))
  | o =>
    if _is_number o then
      some (Function.init self.dom (fun x => self.f x - o.toCV))
    else
      none

/-- Embeds `Function.__mul__` (function.py:303-307). -/
def pyMul (self : PyFunction) (other : Operand) :
    Option (Except PyErr PyFunction) :=
  match other with
  | .fn g => some (Function.init self.dom (fun x => self.f x * g.f x))
  | o =>
    if _is_number o then
      some (Function.init self.dom (fun x => self.f x * o.toCV))
    else
      none

/-- Embeds `Function.__truediv__` (function.py:309-313). -/
def pyDiv (self : PyFunction) (other : Operand) :
    Option (Except PyErr PyFunction) :=
  match other with
  | .fn g => some (Function.init self.dom (fun x => self.f x / g.f x))
  | o =>
    if _is_number o then
      some (Function.init self.dom (fun x => self.f x / o.toCV))
    else
      none

/-- Embeds `Function.__pow__` (function.py:297-301).  Complex
exponentiation is transcendental and not rational-representable, so the
embedding is parametric in the pointwise power operation `cvPow`; none of
the properties proved below depend on its values. -/
def pyPow (cvPow : CV → CV → CV) (self : PyFunction) (other : Operand) :
    Option (Except PyErr PyFunction) :=
  match other with
  | .fn g => some (Function.init self.dom (fun x => cvPow (self.f x) (g.f x)))
  | o =>
    if _is_number o then
      some (Function.init self.dom (fun x => cvPow (self.f x) o.toCV))
    else
      none

/-- The Python comparison `v < 0` on a float value; a `nan` compares
false. -/
def RVal.ltZero : RVal → Bool
  | .num q => q < 0
  | .nan => false

/-- The loop of `find_zeros` (function.py:362-367): walk the domain keeping
the sample value at the most recent detected flip as the anchor `f0`;
whenever the product of the real parts of the anchor and the current sample
is negative, record the current point and move the anchor. -/
def findZerosLoop (f : ℚ → CV) (f0 : CV) : List ℚ → List ℚ
  | [] => []
  | el :: rest =>
    let fn := f el
    if (f0.re * fn.re).ltZero then el :: findZerosLoop f fn rest
    else findZerosLoop f f0 rest

/-- Embeds `Function.find_zeros` (function.py:359-368): the seed
`self._f(self._dom[0])` raises an `IndexError` on an empty domain;
otherwise the sign-change scan runs over the whole domain. -/
def find_zeros (fn : PyFunction) : Except PyErr (List ℚ) :=
  match fn.dom with
  | [] => .error (.indexErr "index 0 is out of bounds for axis 0 with size 0")
  | d0 :: rest => .ok (findZerosLoop fn.f (fn.f d0) (d0 :: rest))

/-- Modelled from the spec: `skipi.util.vslice`, whose source module
`skipi/util.py` is not part of the sources here.  Following section 4.1,
each selector is an interval `(lo, hi)` with `None` meaning unbounded on
that side; the result is the union of the sub-sequences of the domain
falling in the intervals, in the original order and without duplicates.
The zero-padding case `dstart = dstop = 0` used by `Integral.integrate` is
the one modelled. -/
def vslice (domain : List ℚ) (selectors : List (Option ℚ × Option ℚ)) :
    List ℚ :=
  domain.filter (fun x =>
    selectors.any (fun s =>
      (match s.1 with | none => true | some lo => decide (lo ≤ x)) &&
      (match s.2 with | none => true | some hi => decide (x ≤ hi))))

/-- Embeds `Function.remesh` (function.py:237-244): evaluate the stored
relation vectorised on the new mesh, reconstruct a relation from those
samples with `to_function` (which reads the interpolation global), and
build a new `Function` on the new mesh. -/
def PyFunction.remesh (fn : PyFunction) (new_mesh : List ℚ)
    (globalKind : String) : Except PyErr PyFunction := do
  let rel ← to_function new_mesh (.samples (new_mesh.map fn.f)) none true
    globalKind
  Function.init new_mesh rel

/-- Embeds `Function.vremesh` (function.py:246-269) in the zero-padding
case: `remesh` composed with the `vslice` of the own domain. -/
def PyFunction.vremesh (fn : PyFunction)
    (selectors : List (Option ℚ × Option ℚ)) (globalKind : String) :
    Except PyErr PyFunction :=
  fn.remesh (vslice fn.dom selectors) globalKind

/-- scipy's `trapz(y, dx=dx)`: the trapezoidal sum
`dx * sum((y[i] + y[i+1]) / 2)` over consecutive sample pairs (zero when
fewer than two samples). -/
def trapz (ys : List CV) (dx : ℚ) : CV :=
  match ys with
  | a :: b :: rest =>
      (a + b) * CV.ofQ (dx / 2) + trapz (b :: rest) dx
  | _ => CV.zero

/-- The Python expression `numpy.array([x0, x1]) is None` (function.py:423):
an identity comparison between a freshly constructed ndarray object and
`None`, which is `False` whatever `x0` and `x1` are. -/
def npArrayIsNone (_x0 _x1 : Option ℚ) : Bool := false

/-- The Python builtin `any` applied to a `bool` (function.py:423): `any`
requires an iterable, so this call raises a `TypeError` regardless of the
boolean's value. -/
def pyAnyOfBool (_b : Bool) : Except PyErr Bool :=
  .error (.typeErr "argument of type bool is not iterable")

/-- Embeds `Integral.integrate` (function.py:404-427): the guard
`if not any(numpy.array([x0, x1]) is None)` applies the builtin `any` to the
boolean identity test, then (on the guard's false branch untouched, true
branch remeshed to `[x0, x1]`) returns the plain trapezoidal sum of the
function's samples with the first-interval spacing. -/
def Integral.integrate (fn : PyFunction) (x0 x1 : Option ℚ)
    (globalKind : String) : Except PyErr CV := do
  let cond ← pyAnyOfBool (npArrayIsNone x0 x1)
  let fn ← if !cond then fn.vremesh [(x0, x1)] globalKind else pure fn
  let dx := get_dx fn.dom
  pure (trapz fn.eval dx)

/-- A Python value that can stand where `ParametrizedFunction.__init__`
expects a domain: an actual grid (ndarray) or a function object. -/
inductive DomObj where
  | ndarray (xs : List ℚ)
  | funcObj
deriving DecidableEq, Repr

/-- The `domain` argument of `ParametrizedFunction.__init__`: either a
non-callable grid or a callable factory from parameters to grids. -/
inductive DomArg where
  | grid (xs : List ℚ)
  | factory (f : List ℚ → List ℚ)

/-- Embeds the domain handling of `ParametrizedFunction.__init__`
(parameter.py:42-45).  A callable argument is kept as the factory.  A
non-callable grid is converted to an array and then rebound by
`domain = lambda x: domain`: the lambda closes over the local variable
`domain` itself, which after the assignment holds the lambda, so calling
the factory returns that function object -- not the grid. -/
def mkDomFactory : DomArg → (List ℚ → DomObj)
  | .factory f => fun p => .ndarray (f p)
  | .grid _ => fun _ => .funcObj

/-- Modelled from the spec (section 4.5, quoted from the docstring intent of
parameter.py:24-25, "the domain factory will be created automatically"):
the intended wrapping of a non-callable grid as a constant factory that
ignores its parameter argument and returns the given grid. -/
def specConstDomFactory (xs : List ℚ) : List ℚ → DomObj :=
  fun _ => .ndarray xs

/-- numpy's `numpy.diff` applied to whatever object the domain factory
returned: on an actual array the first differences, on a function object
(a 0-d object array after `asanyarray`) a `ValueError`. -/
def npDiffObj : DomObj → Except PyErr (List ℚ)
  | .ndarray xs => .ok (npDiff xs)
  | .funcObj =>
    .error (.valueErr "diff requires input that is at least one dimensional")

/-- The spacing check `Function.is_evenly_spaced_domain` as reached from
`ParametrizedFunction`: the produced domain object may be a function
object, on which `numpy.diff` already fails. -/
def is_evenly_spaced_domainObj (domain : DomObj) : Except PyErr Bool := do
  let diff ← npDiffObj domain
  match diff with
  | [] => .error (.indexErr "index 0 is out of bounds for axis 0 with size 0")
  | d0 :: rest => .ok ((d0 :: rest).all (fun d => npIsCloseZero (d - d0)))

/-- Embeds the domain part of `ParametrizedFunction.__init__`
(parameter.py:42-64): build the domain factory, apply it to the first
parameter vector, and hand the produced domain object to `Function`'s
constructor, whose spacing check runs first. -/
def pfInitDomain (domain : DomArg) (parameters : List ℚ) :
    Except PyErr DomObj := do
  let domFactory := mkDomFactory domain
  let dom := domFactory parameters
  let ok ← is_evenly_spaced_domainObj dom
  if ok then
    .ok dom
  else
    .error (.runtimeWarning "Given domain is not equidistantly spaced")

/-- Whether a float value is an actual nonzero number. -/
def RVal.isNonzeroNum : RVal → Bool
  | .num q => decide (q ≠ 0)
  | .nan => false

/-- The spec's reading of `find_zeros` (section 4.5 of the design text): a
discrete sign-change scan over the real parts of successive samples along
the domain, returning the domain point after each detected sign flip.
`prev` is the previous domain point, and the scan always advances it. -/
def spec_sign_scan (f : ℚ → CV) : ℚ → List ℚ → List ℚ
  | _, [] => []
  | prev, b :: rest =>
    if ((f prev).re * (f b).re).ltZero then b :: spec_sign_scan f b rest
    else spec_sign_scan f b rest

/-- Observes a reconstruction result at one point: `none` when the
reconstruction raised, otherwise the relation's value there. -/
def evalReconAt (res : Except PyErr (ℚ → CV)) (x : ℚ) : Option CV :=
  match res with
  | .ok rel => some (rel x)
  | .error _ => none

/-- The domain `numpy.linspace(-1, 1, 101)`. -/
def lin101 : List ℚ := (List.range 101).map (fun k => -1 + (k : ℚ) / 50)

/-- The relation `lambda x: x` as a complex-valued callable. -/
def idRel : ℚ → CV := fun x => CV.ofQ x

/-- The concrete sample table `[0, 1]` over the mesh `[0, 1]`, used to
exhibit interpolation behaviour at particular points. -/
def exSamples : FEval := .samples [CV.ofQ 0, CV.ofQ 1]

end Skipi

namespace Skipi

/-- Reduction of a successful `Except` bind, used to unfold the embedded
do-blocks in proofs. -/
theorem except_bind_ok {ε α β : Type} (a : α) (f : α → Except ε β) :
    (Except.ok a >>= f : Except ε β) = f a := rfl

/-- Reduction of a failing `Except` bind. -/
theorem except_bind_error {ε α β : Type} (e : ε) (f : α → Except ε β) :
    (Except.error e >>= f : Except ε β) = .error e := rfl

/-- Multiplication of two numeric float values. -/
theorem RVal.num_mul_num (a b : ℚ) :
    (RVal.num a * RVal.num b) = RVal.num (a * b) := rfl

/-- Addition of two numeric float values. -/
theorem RVal.num_add_num (a b : ℚ) :
    (RVal.num a + RVal.num b) = RVal.num (a + b) := rfl

/-- Subtraction of two numeric float values. -/
theorem RVal.num_sub_num (a b : ℚ) :
    (RVal.num a - RVal.num b) = RVal.num (a - b) := rfl

/-- Division of two numeric float values. -/
theorem RVal.num_div_num (a b : ℚ) :
    (RVal.num a / RVal.num b) =
      if b = 0 then RVal.nan else RVal.num (a / b) := rfl

/-- Unfolding of complex addition into its components. -/
theorem CV.add_def (a b : CV) : a + b = ⟨a.re + b.re, a.im + b.im⟩ := rfl

/-- Unfolding of complex subtraction into its components. -/
theorem CV.sub_def (a b : CV) : a - b = ⟨a.re - b.re, a.im - b.im⟩ := rfl

/-- Unfolding of complex multiplication into its components. -/
theorem CV.mul_def (a b : CV) :
    a * b = ⟨a.re * b.re - a.im * b.im, a.re * b.im + a.im * b.re⟩ := rfl

/-- Unfolding of complex division into its components. -/
theorem CV.div_def (a b : CV) :
    a / b = ⟨(a.re * b.re + a.im * b.im) / (b.re * b.re + b.im * b.im),
             (a.im * b.re - a.re * b.im) / (b.re * b.re + b.im * b.im)⟩ := rfl

/-- The negativity test on a numeric float value. -/
theorem RVal.ltZero_num (q : ℚ) :
    (RVal.num q).ltZero = decide (q < 0) := rfl

/-- Construction succeeds and stores domain and relation unchanged when the
spacing check passes. -/
theorem function_init_ok (D : List ℚ) (rel : ℚ → CV)
    (h : is_evenly_spaced_domain D = .ok true) :
    Function.init D rel = .ok ⟨D, rel⟩ := by
  simp only [Function.init, h, except_bind_ok]
  rfl

/-- Zipping the images of two maps over one list is mapping the pointwise
combination. -/
theorem zipWith_map_self {α β : Type} (op : β → β → β) (f g : α → β)
    (l : List α) :
    List.zipWith op (l.map f) (l.map g) = l.map (fun x => op (f x) (g x)) := by
  induction l with
  | nil => rfl
  | cons a l ih => simp [ih]

/-- C1: `Integral.integrate` never reaches the trapezoidal sum: the guard
`any(numpy.array([x0, x1]) is None)` applies the builtin `any` to a plain
boolean, which raises a `TypeError` for every function and every choice of
bounds, so the claimed scalar result (and the additivity consequence) does
not happen on any input. -/
theorem integrate_always_raises_type_error (fn : PyFunction)
    (x0 x1 : Option ℚ) (globalKind : String) :
    Integral.integrate fn x0 x1 globalKind =
      .error (.typeErr "argument of type bool is not iterable") := rfl

/-- C2: on a zero- or one-element domain the spacing check is not total:
`numpy.diff` yields an empty array and the subscript `diff[0]` raises an
`IndexError` instead of returning `True`. -/
theorem spacing_check_crashes_on_short_domain :
    is_evenly_spaced_domain [] =
      .error (.indexErr "index 0 is out of bounds for axis 0 with size 0") ∧
    is_evenly_spaced_domain [5] =
      .error (.indexErr "index 0 is out of bounds for axis 0 with size 0") :=
  ⟨rfl, rfl⟩

/-- C3: a non-callable grid is not wrapped as a constant factory: the
rebinding `domain = lambda x: domain` makes the factory return itself (a
function object), so on the grid `[0, 1/2, 1]` with parameters `[3]` the
constructed domain is not the grid and `Function` construction fails inside
`numpy.diff`; the spec-intended constant factory would have produced the
grid. -/
theorem parametrized_grid_domain_not_wrapped :
    mkDomFactory (.grid [0, 1/2, 1]) [3] = .funcObj ∧
    pfInitDomain (.grid [0, 1/2, 1]) [3] =
      .error (.valueErr "diff requires input that is at least one dimensional") ∧
    specConstDomFactory [0, 1/2, 1] [3] = .ndarray [0, 1/2, 1] :=
  ⟨rfl, rfl, rfl⟩

/-- C4: whenever the equidistant-spacing check returns false on a domain,
`Function.__init__` raises the non-uniform-domain error for every relation,
so construction never succeeds on such a domain. -/
theorem function_init_rejects_uneven_domain (domain : List ℚ)
    (rel : ℚ → CV) (h : is_evenly_spaced_domain domain = .ok false) :
    Function.init domain rel =
      .error (.runtimeWarning "Given domain is not equidistantly spaced") := by
  simp only [Function.init, h]
  rfl

/-- Witness for C4 at the spec's own example `[0, 1, 3]`. -/
theorem function_init_rejects_uneven_domain_witness :
    Function.init [0, 1, 3] (fun _ => CV.zero) =
      .error (.runtimeWarning "Given domain is not equidistantly spaced") :=
  function_init_rejects_uneven_domain [0, 1, 3] (fun _ => CV.zero)
    (by norm_num [is_evenly_spaced_domain, npDiff, npIsCloseZero])

/-- C9: on a 0-length mesh `to_function` returns the trivial always-zero
relation without fitting any interpolant. -/
theorem to_function_empty_domain_always_zero (feval : FEval)
    (interpolation : Option String) (to_zero : Bool) (globalKind : String) :
    ∃ rel, to_function [] feval interpolation to_zero globalKind = .ok rel ∧
      ∀ x : ℚ, rel x = CV.zero :=
  ⟨fun _ => CV.zero, rfl, fun _ => rfl⟩

/-- C10: each binary operator method falls through and returns `None` when
the right operand is neither a `Function` nor a recognised number (for any
choice of the complex power operation left parametric in the embedding). -/
theorem binary_ops_return_none_on_foreign_operand
    (cvPow : CV → CV → CV) (self : PyFunction) (other : Operand)
    (hfn : ∀ g, other ≠ .fn g) (hnum : _is_number other = false) :
    pyAdd self other = none ∧ pySub self other = none ∧
    pyMul self other = none ∧ pyDiv self other = none ∧
    pyPow cvPow self other = none := by
  cases other with
  | fn g => exact absurd rfl (hfn g)
  | int n => simp [_is_number] at hnum
  | float q => simp [_is_number] at hnum
  | complex z => simp [_is_number] at hnum
  | str s => simp [pyAdd, pySub, pyMul, pyDiv, pyPow, _is_number]
  | list xs => simp [pyAdd, pySub, pyMul, pyDiv, pyPow, _is_number]

/-- Witness for C10: a string right operand makes all five operators
return `None`. -/
theorem binary_ops_return_none_on_foreign_operand_witness :
    pyAdd ⟨[0, 1], fun _ => CV.zero⟩ (.str "x") = none ∧
    pySub ⟨[0, 1], fun _ => CV.zero⟩ (.str "x") = none ∧
    pyMul ⟨[0, 1], fun _ => CV.zero⟩ (.str "x") = none ∧
    pyDiv ⟨[0, 1], fun _ => CV.zero⟩ (.str "x") = none ∧
    pyPow (fun _ _ => CV.zero) ⟨[0, 1], fun _ => CV.zero⟩ (.str "x") = none :=
  binary_ops_return_none_on_foreign_operand (fun _ _ => CV.zero)
    ⟨[0, 1], fun _ => CV.zero⟩ (.str "x")
    (fun _ h => Operand.noConfusion h) rfl

/-- C8: the interpolation global starts as `linear`; the setter stores the
new kind and returns the previous one; a reconstruction that passes no
explicit kind resolves the global at the time of the `to_function` call
(identically to passing the current global explicitly), and changing the
global between construction and reconstruction changes the reconstructed
relation, exhibited on the samples `[0, 1]` over `[0, 1]` at `x = 1/4`. -/
theorem interpolation_global_read_at_call_time :
    FUNCTION_INTERPOLATION_TYPE_initial = "linear" ∧
    (∀ k s, set_interpolation_type k s = (s, k)) ∧
    (∀ (xs : List ℚ) (fe : FEval) (z : Bool) (g : String),
      to_function xs fe none z g = to_function xs fe (some g) z g) ∧
    evalReconAt (to_function [0, 1] exSamples none true "linear") (1/4) =
      some (CV.ofQ (1/4)) ∧
    evalReconAt (to_function [0, 1] exSamples none true "nearest") (1/4) =
      some (CV.ofQ 0) := by
  refine ⟨rfl, fun k s => rfl, fun _ _ _ _ => rfl, ?_, ?_⟩
  · show some (combineParts
        (boundsWrap [0, 1] (.num 0, .num 0)
          (linInterpAt [0, 1] [.num 0, .num 1]) (1/4))
        (boundsWrap [0, 1] (.num 0, .num 0)
          (linInterpAt [0, 1] [.num 0, .num 0]) (1/4))) =
      some (CV.ofQ (1/4))
    norm_num [boundsWrap, linInterpAt, searchsortedLeft, combineParts,
      CV.ofQ, CV.add_def, CV.mul_def, RVal.num_mul_num, RVal.num_add_num,
      RVal.num_sub_num, RVal.num_div_num, List.getLastD, List.countP,
      List.countP.go]
  · show some (combineParts
        (boundsWrap [0, 1] (.num 0, .num 0)
          (nearestAt [0, 1] [.num 0, .num 1]) (1/4))
        (boundsWrap [0, 1] (.num 0, .num 0)
          (nearestAt [0, 1] [.num 0, .num 0]) (1/4))) =
      some (CV.ofQ 0)
    norm_num [boundsWrap, nearestAt, midpoints, searchsortedLeft,
      combineParts, CV.ofQ, CV.add_def, CV.mul_def, RVal.num_mul_num,
      RVal.num_add_num, RVal.num_sub_num, RVal.num_div_num, List.getLastD,
      List.countP, List.countP.go]

/-- The default of a list indexing with default is the indexed element when
the index is in bounds. -/
theorem headD_eq_getElem (l : List ℚ) (d : ℚ) (h : 0 < l.length) :
    l.headD d = l[0] := by
  cases l with
  | nil => simp at h
  | cons a t => rfl

/-- The last-with-default of a nonempty list is its last element. -/
theorem getLastD_eq_getElem (l : List ℚ) (d : ℚ) (h : 0 < l.length) :
    l.getLastD d = l[l.length - 1] := by
  rw [List.getLastD_eq_getLast?, List.getLast?_eq_getElem?,
    List.getElem?_eq_getElem (by omega)]
  rfl

/-- On a strictly increasing mesh with at least two points the first knot
lies strictly below the last. -/
theorem headD_lt_getLastD (l : List ℚ) (hlen : 2 ≤ l.length)
    (hsort : List.Chain' (fun a b => a < b) l) :
    l.headD 0 < l.getLastD 0 := by
  rw [headD_eq_getElem l 0 (by omega), getLastD_eq_getElem l 0 (by omega)]
  exact (List.pairwise_iff_getElem.mp (List.chain'_iff_pairwise.mp hsort))
    _ _ (by omega) (by omega) (by omega)

/-- Linear interpolation over numeric samples on a strictly increasing mesh
yields a numeric value at every query point. -/
theorem linInterpAt_num (xs : List ℚ) (ys : List RVal) (x : ℚ)
    (hlen : 2 ≤ xs.length) (hys : ys.length = xs.length)
    (hnum : ∀ y ∈ ys, ∃ q, y = .num q)
    (hsort : List.Chain' (fun a b => a < b) xs) :
    ∃ q, linInterpAt xs ys x = .num q := by
  set idx := min (max (searchsortedLeft xs x) 1) (xs.length - 1) with hidxdef
  have h1 : 1 ≤ idx := le_min (le_max_right _ _) (by omega)
  have h2 : idx ≤ xs.length - 1 := min_le_right _ _
  have hidxlt : idx < xs.length := by omega
  have hlolt : idx - 1 < xs.length := by omega
  have hloys : idx - 1 < ys.length := by omega
  have hidxys : idx < ys.length := by omega
  obtain ⟨qlo, hqlo⟩ := hnum _ (List.getElem_mem hloys)
  obtain ⟨qhi, hqhi⟩ := hnum _ (List.getElem_mem hidxys)
  have hxs : xs[idx - 1] < xs[idx] :=
    (List.pairwise_iff_getElem.mp (List.chain'_iff_pairwise.mp hsort))
      _ _ hlolt hidxlt (by omega)
  refine ⟨(qhi - qlo) / (xs[idx] - xs[idx - 1]) * (x - xs[idx - 1]) + qlo, ?_⟩
  simp only [linInterpAt]
  rw [← hidxdef]
  rw [List.getD_eq_getElem xs 0 hlolt, List.getD_eq_getElem xs 0 hidxlt,
    List.getD_eq_getElem ys .nan hloys, List.getD_eq_getElem ys .nan hidxys,
    hqlo, hqhi, RVal.num_sub_num, RVal.num_div_num,
    if_neg (sub_ne_zero.mpr (ne_of_gt hxs)), RVal.num_mul_num,
    RVal.num_add_num]

/-- Nearest-neighbour interpolation over numeric samples yields a numeric
value at every query point. -/
theorem nearestAt_num (xs : List ℚ) (ys : List RVal) (x : ℚ)
    (hlen : 2 ≤ xs.length) (hys : ys.length = xs.length)
    (hnum : ∀ y ∈ ys, ∃ q, y = .num q) :
    ∃ q, nearestAt xs ys x = .num q := by
  have hmid : (midpoints xs).length = xs.length - 1 := by
    simp only [midpoints, List.length_zipWith, List.length_tail]
    omega
  have hidx : searchsortedLeft (midpoints xs) x < ys.length := by
    have h1 : searchsortedLeft (midpoints xs) x ≤ (midpoints xs).length :=
      List.countP_le_length _
    omega
  obtain ⟨q, hq⟩ := hnum _ (List.getElem_mem hidx)
  refine ⟨q, ?_⟩
  simp only [nearestAt]
  rw [List.getD_eq_getElem ys .nan hidx, hq]

/-- Recombining two numeric parts gives a numeric complex value. -/
theorem combineParts_num (a b : ℚ) :
    ∃ c d : ℚ, combineParts (.num a) (.num b) = ⟨.num c, .num d⟩ :=
  ⟨_, _, rfl⟩

/-- Recombining the zero fill gives the complex zero. -/
theorem combineParts_zero : combineParts (.num 0) (.num 0) = CV.zero := by
  simp only [combineParts, CV.add_def, CV.mul_def, RVal.num_mul_num,
    RVal.num_sub_num, RVal.num_add_num, CV.zero]
  norm_num

/-- Recombining the nan fill gives nan in both components. -/
theorem combineParts_nan :
    combineParts .nan .nan = ⟨.nan, .nan⟩ := rfl

/-- Successful construction of a linear interpolant. -/
theorem interp1dMk_linear_ok (xs : List ℚ) (ys : List RVal)
    (fill : RVal × RVal) (hys : ys.length = xs.length)
    (hlen : 2 ≤ xs.length) :
    interp1dMk xs ys fill "linear" =
      .ok (boundsWrap xs fill (linInterpAt xs ys)) := by
  have hne : ¬(xs.length ≠ ys.length) := by omega
  have h2 : ¬(xs.length < 2) := by omega
  simp [interp1dMk, hne, h2]

/-- Successful construction of a nearest-neighbour interpolant. -/
theorem interp1dMk_nearest_ok (xs : List ℚ) (ys : List RVal)
    (fill : RVal × RVal) (hys : ys.length = xs.length)
    (hlen : 2 ≤ xs.length) :
    interp1dMk xs ys fill "nearest" =
      .ok (boundsWrap xs fill (nearestAt xs ys)) := by
  have hne : ¬(xs.length ≠ ys.length) := by omega
  have h2 : ¬(xs.length < 2) := by omega
  simp [interp1dMk, hne, h2]

/-- C7: a reconstruction that succeeds (mesh of two or more strictly
increasing points, aligned numeric samples, one of the embedded
interpolation kinds) evaluates to `0+0i` outside the mesh's span when
`to_zero` is set and to nan in both components otherwise, while inside the
span (bounds inclusive) it evaluates to a numeric complex value produced by
the interpolant -- never a bounds error. -/
theorem to_function_boundary_policy (x_space : List ℚ) (feval : FEval)
    (interpolation : Option String) (to_zero : Bool) (globalKind : String)
    (hsort : List.Chain' (fun a b => a < b) x_space)
    (hlen : 2 ≤ x_space.length)
    (hkind : interpolation.getD globalKind = "linear" ∨
             interpolation.getD globalKind = "nearest")
    (harr : (feval.arr x_space).length = x_space.length)
    (hnum : ∀ v ∈ feval.arr x_space, v.isNum = true) :
    ∃ rel, to_function x_space feval interpolation to_zero globalKind =
        .ok rel ∧
      (∀ x : ℚ, (x < x_space.headD 0 ∨ x_space.getLastD 0 < x) →
        rel x = if to_zero then CV.zero else ⟨.nan, .nan⟩) ∧
      (∀ x : ℚ, x_space.headD 0 ≤ x → x ≤ x_space.getLastD 0 →
        ∃ a b : ℚ, rel x = ⟨.num a, .num b⟩) := by
  have hys_re : ((feval.arr x_space).map CV.re).length = x_space.length := by
    simpa using harr
  have hys_im : ((feval.arr x_space).map CV.im).length = x_space.length := by
    simpa using harr
  have hnum_re : ∀ y ∈ (feval.arr x_space).map CV.re, ∃ q, y = RVal.num q := by
    intro y hy
    obtain ⟨v, hv, rfl⟩ := List.mem_map.mp hy
    have hvn := hnum v hv
    cases hre : v.re with
    | num q => exact ⟨q, rfl⟩
    | nan => rw [CV.isNum, hre] at hvn; exact absurd hvn (by simp)
  have hnum_im : ∀ y ∈ (feval.arr x_space).map CV.im, ∃ q, y = RVal.num q := by
    intro y hy
    obtain ⟨v, hv, rfl⟩ := List.mem_map.mp hy
    have hvn := hnum v hv
    cases him : v.im with
    | num q => exact ⟨q, rfl⟩
    | nan =>
      rw [CV.isNum, him] at hvn
      cases v.re <;> exact absurd hvn (by simp)
  have hhl := headD_lt_getLastD x_space hlen hsort
  rcases hkind with hk | hk
  · refine ⟨fun x => combineParts
        (boundsWrap x_space
          (if to_zero then (.num 0, .num 0) else (.nan, .nan))
          (linInterpAt x_space ((feval.arr x_space).map CV.re)) x)
        (boundsWrap x_space
          (if to_zero then (.num 0, .num 0) else (.nan, .nan))
          (linInterpAt x_space ((feval.arr x_space).map CV.im)) x),
      ?_, ?_, ?_⟩
    · simp only [to_function, hk]
      rw [if_neg (by omega)]
      rw [interp1dMk_linear_ok _ _ _ hys_re hlen,
        interp1dMk_linear_ok _ _ _ hys_im hlen]
      simp only [except_bind_ok]
    · intro x hx
      rcases hx with hlow | hhigh
      · simp only [boundsWrap]
        rw [if_pos hlow, if_pos hlow]
        cases to_zero <;> simp [combineParts_zero, combineParts_nan]
      · have h1 : ¬(x < x_space.headD 0) := by push_neg; linarith
        simp only [boundsWrap]
        rw [if_neg h1, if_pos hhigh, if_neg h1, if_pos hhigh]
        cases to_zero <;> simp [combineParts_zero, combineParts_nan]
    · intro x hxl hxr
      have h1 : ¬(x < x_space.headD 0) := not_lt.mpr hxl
      have h2 : ¬(x_space.getLastD 0 < x) := not_lt.mpr hxr
      simp only [boundsWrap]
      rw [if_neg h1, if_neg h2, if_neg h1, if_neg h2]
      obtain ⟨a, ha⟩ :=
        linInterpAt_num x_space _ x hlen hys_re hnum_re hsort
      obtain ⟨b, hb⟩ :=
        linInterpAt_num x_space _ x hlen hys_im hnum_im hsort
      rw [ha, hb]
      exact combineParts_num a b
  · refine ⟨fun x => combineParts
        (boundsWrap x_space
          (if to_zero then (.num 0, .num 0) else (.nan, .nan))
          (nearestAt x_space ((feval.arr x_space).map CV.re)) x)
        (boundsWrap x_space
          (if to_zero then (.num 0, .num 0) else (.nan, .nan))
          (nearestAt x_space ((feval.arr x_space).map CV.im)) x),
      ?_, ?_, ?_⟩
    · simp only [to_function, hk]
      rw [if_neg (by omega)]
      rw [interp1dMk_nearest_ok _ _ _ hys_re hlen,
        interp1dMk_nearest_ok _ _ _ hys_im hlen]
      simp only [except_bind_ok]
    · intro x hx
      rcases hx with hlow | hhigh
      · simp only [boundsWrap]
        rw [if_pos hlow, if_pos hlow]
        cases to_zero <;> simp [combineParts_zero, combineParts_nan]
      · have h1 : ¬(x < x_space.headD 0) := by push_neg; linarith
        simp only [boundsWrap]
        rw [if_neg h1, if_pos hhigh, if_neg h1, if_pos hhigh]
        cases to_zero <;> simp [combineParts_zero, combineParts_nan]
    · intro x hxl hxr
      have h1 : ¬(x < x_space.headD 0) := not_lt.mpr hxl
      have h2 : ¬(x_space.getLastD 0 < x) := not_lt.mpr hxr
      simp only [boundsWrap]
      rw [if_neg h1, if_neg h2, if_neg h1, if_neg h2]
      obtain ⟨a, ha⟩ := nearestAt_num x_space _ x hlen hys_re hnum_re
      obtain ⟨b, hb⟩ := nearestAt_num x_space _ x hlen hys_im hnum_im
      rw [ha, hb]
      exact combineParts_num a b

/-- Witness for C7: reconstruction of the samples `[0, 1]` over the mesh
`[0, 1]` with linear kind and the zero fill policy. -/
theorem to_function_boundary_policy_witness :
    ∃ rel, to_function [0, 1] exSamples none true "linear" = .ok rel ∧
      (∀ x : ℚ, (x < List.headD [0, 1] 0 ∨ List.getLastD [0, 1] 0 < x) →
        rel x = if true then CV.zero else ⟨.nan, .nan⟩) ∧
      (∀ x : ℚ, List.headD [0, 1] 0 ≤ x → x ≤ List.getLastD [0, 1] 0 →
        ∃ a b : ℚ, rel x = ⟨.num a, .num b⟩) :=
  to_function_boundary_policy [0, 1] exSamples none true "linear"
    (by norm_num) (by norm_num) (Or.inl rfl) (by norm_num [exSamples, FEval.arr])
    (by intro v hv
        simp only [exSamples, FEval.arr, List.mem_cons] at hv
        rcases hv with rfl | rfl | h
        · rfl
        · rfl
        · simp at h)

/-- C6: on a validated common domain the four lazy binary operators build a
`Function` on the receiver's domain whose dense evaluation is the exact
elementwise combination of the operands' dense evaluations (exact over `ℚ`,
hence within any floating tolerance), with the divisor nonzero on the
domain for the division case. -/
theorem binary_ops_pointwise_on_common_domain (D : List ℚ) (f g : ℚ → CV)
    (hD : is_evenly_spaced_domain D = .ok true)
    (hlen : 2 ≤ D.length)
    (hnz : ∀ x ∈ D, (g x).isNum = true ∧ g x ≠ CV.zero) :
    (∃ s, pyAdd ⟨D, f⟩ (.fn ⟨D, g⟩) = some (.ok s) ∧ s.dom = D ∧
      s.eval = List.zipWith (fun a b => a + b)
        (PyFunction.eval ⟨D, f⟩) (PyFunction.eval ⟨D, g⟩)) ∧
    (∃ s, pySub ⟨D, f⟩ (.fn ⟨D, g⟩) = some (.ok s) ∧ s.dom = D ∧
      s.eval = List.zipWith (fun a b => a - b)
        (PyFunction.eval ⟨D, f⟩) (PyFunction.eval ⟨D, g⟩)) ∧
    (∃ s, pyMul ⟨D, f⟩ (.fn ⟨D, g⟩) = some (.ok s) ∧ s.dom = D ∧
      s.eval = List.zipWith (fun a b => a * b)
        (PyFunction.eval ⟨D, f⟩) (PyFunction.eval ⟨D, g⟩)) ∧
    (∃ s, pyDiv ⟨D, f⟩ (.fn ⟨D, g⟩) = some (.ok s) ∧ s.dom = D ∧
      s.eval = List.zipWith (fun a b => a / b)
        (PyFunction.eval ⟨D, f⟩) (PyFunction.eval ⟨D, g⟩)) := by
  refine
    ⟨⟨⟨D, fun x => f x + g x⟩, ?_, rfl, ?_⟩,
     ⟨⟨D, fun x => f x - g x⟩, ?_, rfl, ?_⟩,
     ⟨⟨D, fun x => f x * g x⟩, ?_, rfl, ?_⟩,
     ⟨⟨D, fun x => f x / g x⟩, ?_, rfl, ?_⟩⟩ <;>
    simp [pyAdd, pySub, pyMul, pyDiv, function_init_ok _ _ hD,
      PyFunction.eval, zipWith_map_self]

/-- Witness for C6 on the domain `[0, 1]` with the constant relations `1`
and `2`. -/
theorem binary_ops_pointwise_on_common_domain_witness :
    (∃ s, pyAdd ⟨[0, 1], fun _ => CV.ofQ 1⟩ (.fn ⟨[0, 1], fun _ => CV.ofQ 2⟩) =
        some (.ok s) ∧ s.dom = [0, 1] ∧
      s.eval = List.zipWith (fun a b => a + b)
        (PyFunction.eval ⟨[0, 1], fun _ => CV.ofQ 1⟩)
        (PyFunction.eval ⟨[0, 1], fun _ => CV.ofQ 2⟩)) ∧
    (∃ s, pySub ⟨[0, 1], fun _ => CV.ofQ 1⟩ (.fn ⟨[0, 1], fun _ => CV.ofQ 2⟩) =
        some (.ok s) ∧ s.dom = [0, 1] ∧
      s.eval = List.zipWith (fun a b => a - b)
        (PyFunction.eval ⟨[0, 1], fun _ => CV.ofQ 1⟩)
        (PyFunction.eval ⟨[0, 1], fun _ => CV.ofQ 2⟩)) ∧
    (∃ s, pyMul ⟨[0, 1], fun _ => CV.ofQ 1⟩ (.fn ⟨[0, 1], fun _ => CV.ofQ 2⟩) =
        some (.ok s) ∧ s.dom = [0, 1] ∧
      s.eval = List.zipWith (fun a b => a * b)
        (PyFunction.eval ⟨[0, 1], fun _ => CV.ofQ 1⟩)
        (PyFunction.eval ⟨[0, 1], fun _ => CV.ofQ 2⟩)) ∧
    (∃ s, pyDiv ⟨[0, 1], fun _ => CV.ofQ 1⟩ (.fn ⟨[0, 1], fun _ => CV.ofQ 2⟩) =
        some (.ok s) ∧ s.dom = [0, 1] ∧
      s.eval = List.zipWith (fun a b => a / b)
        (PyFunction.eval ⟨[0, 1], fun _ => CV.ofQ 1⟩)
        (PyFunction.eval ⟨[0, 1], fun _ => CV.ofQ 2⟩)) :=
  binary_ops_pointwise_on_common_domain [0, 1]
    (fun _ => CV.ofQ 1) (fun _ => CV.ofQ 2)
    (by norm_num [is_evenly_spaced_domain, npDiff, npIsCloseZero])
    (by norm_num)
    (fun x _ => by norm_num [CV.ofQ, CV.zero, CV.isNum])

/-- A float value that passes the nonzero-number test is a nonzero
rational. -/
theorem isNonzeroNum_elim (v : RVal) (h : v.isNonzeroNum = true) :
    ∃ p, v = .num p ∧ p ≠ 0 := by
  cases v with
  | num q => exact ⟨q, rfl, of_decide_eq_true h⟩
  | nan => simp [RVal.isNonzeroNum] at h

/-- The negativity of a product is invariant under replacing one factor by
another of the same strict sign. -/
theorem ltZero_mul_congr (p q : ℚ) (v : RVal)
    (hsign : (0 < p ∧ 0 < q) ∨ (p < 0 ∧ q < 0)) :
    (RVal.num p * v).ltZero = (RVal.num q * v).ltZero := by
  cases v with
  | nan => rfl
  | num r =>
    simp only [RVal.num_mul_num, RVal.ltZero_num]
    apply decide_eq_decide.mpr
    rw [mul_neg_iff, mul_neg_iff]
    rcases hsign with ⟨hp, hq⟩ | ⟨hp, hq⟩
    · constructor
      · rintro (⟨_, h⟩ | ⟨h, _⟩)
        · exact Or.inl ⟨hq, h⟩
        · linarith
      · rintro (⟨_, h⟩ | ⟨h, _⟩)
        · exact Or.inl ⟨hp, h⟩
        · linarith
    · constructor
      · rintro (⟨h, _⟩ | ⟨_, h⟩)
        · linarith
        · exact Or.inr ⟨hq, h⟩
      · rintro (⟨h, _⟩ | ⟨_, h⟩)
        · linarith
        · exact Or.inr ⟨hp, h⟩

/-- The scan loop of `find_zeros` does not depend on which anchor value it
carries, as long as the anchors' real parts share a strict sign. -/
theorem findZerosLoop_anchor_sign (f : ℚ → CV) (a b : CV) (p q : ℚ)
    (hp : a.re = .num p) (hq : b.re = .num q)
    (hsign : (0 < p ∧ 0 < q) ∨ (p < 0 ∧ q < 0)) :
    ∀ l : List ℚ, findZerosLoop f a l = findZerosLoop f b l := by
  intro l
  induction l with
  | nil => rfl
  | cons el rest ih =>
    simp only [findZerosLoop, hp, hq,
      ltZero_mul_congr p q ((f el).re) hsign]
    cases hc : (RVal.num q * (f el).re).ltZero with
    | true => simp [hc]
    | false => simp [hc, ih]

/-- When every sample's real part is a nonzero number, the anchored scan
loop of `find_zeros` coincides with the spec's successive-samples
sign-change scan. -/
theorem findZerosLoop_eq_spec_scan (f : ℚ → CV) (l : List ℚ) :
    ∀ a : ℚ, (∀ x ∈ a :: l, (f x).re.isNonzeroNum = true) →
      findZerosLoop f (f a) l = spec_sign_scan f a l := by
  induction l with
  | nil => intro a _; rfl
  | cons b rest ih =>
    intro a hnz
    obtain ⟨p, hp, hp0⟩ := isNonzeroNum_elim _ (hnz a (by simp))
    obtain ⟨q, hq, hq0⟩ := isNonzeroNum_elim _ (hnz b (by simp))
    have htail : ∀ x ∈ b :: rest, (f x).re.isNonzeroNum = true :=
      fun x hx => hnz x (List.mem_cons_of_mem a hx)
    simp only [findZerosLoop, spec_sign_scan]
    cases hc : ((f a).re * (f b).re).ltZero with
    | true =>
      rw [if_pos rfl, if_pos rfl, ih b htail]
    | false =>
      rw [if_neg (by simp), if_neg (by simp)]
      have hpq : ¬(p * q < 0) := by
        rw [hp, hq, RVal.num_mul_num, RVal.ltZero_num] at hc
        exact of_decide_eq_false hc
      have hsign : (0 < p ∧ 0 < q) ∨ (p < 0 ∧ q < 0) := by
        rcases lt_trichotomy p 0 with h | h | h
        · rcases lt_trichotomy q 0 with h2 | h2 | h2
          · exact Or.inr ⟨h, h2⟩
          · exact absurd h2 hq0
          · exact absurd (mul_neg_of_neg_of_pos h h2) hpq
        · exact absurd h hp0
        · rcases lt_trichotomy q 0 with h2 | h2 | h2
          · exact absurd (mul_neg_of_pos_of_neg h h2) hpq
          · exact absurd h2 hq0
          · exact Or.inl ⟨h, h2⟩
      rw [findZerosLoop_anchor_sign f (f a) (f b) p q hp hq hsign rest]
      exact ih b htail

set_option maxRecDepth 8000 in
set_option maxHeartbeats 1000000 in
/-- C5: `find_zeros` scans the real parts of the samples along the domain
and returns exactly the domain points after each detected sign flip --
whenever no sample's real part is exactly zero this is literally the
successive-samples sign-change scan -- and on
`Function(linspace(-1, 1, 101), lambda x: x)` it returns the single
crossing `1/50`, which lies within one grid spacing of the true root 0. -/
theorem find_zeros_sign_change_scan :
    (∀ (f : ℚ → CV) (d0 : ℚ) (l : List ℚ),
      (∀ x ∈ d0 :: l, (f x).re.isNonzeroNum = true) →
      find_zeros ⟨d0 :: l, f⟩ = .ok (spec_sign_scan f d0 l)) ∧
    find_zeros ⟨lin101, idRel⟩ = .ok [1/50] ∧
    |(1 : ℚ)/50 - 0| ≤ get_dx lin101 := by
  have hr : List.range 101 =
      [0, 1, 2, 3, 4, 5, 6, 7, 8, 9, 10, 11, 12, 13, 14, 15, 16, 17, 18,
      19, 20, 21, 22, 23, 24, 25, 26, 27, 28, 29, 30, 31, 32, 33, 34, 35,
      36, 37, 38, 39, 40, 41, 42, 43, 44, 45, 46, 47, 48, 49, 50, 51, 52,
      53, 54, 55, 56, 57, 58, 59, 60, 61, 62, 63, 64, 65, 66, 67, 68, 69,
      70, 71, 72, 73, 74, 75, 76, 77, 78, 79, 80, 81, 82, 83, 84, 85, 86,
      87, 88, 89, 90, 91, 92, 93, 94, 95, 96, 97, 98, 99, 100] := rfl
  have hdom : lin101 =
      [-1, -49/50, -24/25, -47/50, -23/25, -9/10, -22/25, -43/50, -21/25,
      -41/50, -4/5, -39/50, -19/25, -37/50, -18/25, -7/10, -17/25,
      -33/50, -16/25, -31/50, -3/5, -29/50, -14/25, -27/50, -13/25, -1/2,
      -12/25, -23/50, -11/25, -21/50, -2/5, -19/50, -9/25, -17/50, -8/25,
      -3/10, -7/25, -13/50, -6/25, -11/50, -1/5, -9/50, -4/25, -7/50,
      -3/25, -1/10, -2/25, -3/50, -1/25, -1/50, 0, 1/50, 1/25, 3/50,
      2/25, 1/10, 3/25, 7/50, 4/25, 9/50, 1/5, 11/50, 6/25, 13/50, 7/25,
      3/10, 8/25, 17/50, 9/25, 19/50, 2/5, 21/50, 11/25, 23/50, 12/25,
      1/2, 13/25, 27/50, 14/25, 29/50, 3/5, 31/50, 16/25, 33/50, 17/25,
      7/10, 18/25, 37/50, 19/25, 39/50, 4/5, 41/50, 21/25, 43/50, 22/25,
      9/10, 23/25, 47/50, 24/25, 49/50, 1] := by
    rw [lin101, hr]
    norm_num
  refine ⟨?_, ?_, ?_⟩
  · intro f d0 l hnz
    simp only [find_zeros]
    obtain ⟨p, hp, hp0⟩ := isNonzeroNum_elim _ (hnz d0 (by simp))
    have hsq : ((f d0).re * (f d0).re).ltZero = false := by
      rw [hp, RVal.num_mul_num, RVal.ltZero_num]
      exact decide_eq_false (by nlinarith)
    simp only [findZerosLoop, hsq]
    rw [if_neg (by simp), findZerosLoop_eq_spec_scan f l d0 hnz]
  · rw [hdom]
    norm_num [find_zeros, findZerosLoop, RVal.ltZero_num, RVal.num_mul_num,
      idRel, CV.ofQ]
  · rw [hdom]
    norm_num [get_dx, abs_le]

/-- Witness for C5 on the two-point domain `[0, 1]` with the relation
`2x - 1`, whose samples are `-1` and `1`. -/
theorem find_zeros_sign_change_scan_witness :
    find_zeros ⟨[0, 1], fun x => CV.ofQ (2 * x - 1)⟩ =
      .ok (spec_sign_scan (fun x => CV.ofQ (2 * x - 1)) 0 [1]) :=
  find_zeros_sign_change_scan.1 (fun x => CV.ofQ (2 * x - 1)) 0 [1]
    (by intro x hx
        simp only [List.mem_cons, List.not_mem_nil, or_false] at hx
        rcases hx with rfl | rfl
        · norm_num [CV.ofQ, RVal.isNonzeroNum]
        · norm_num [CV.ofQ, RVal.isNonzeroNum])

end Skipi
